import Mathlib

set_option maxHeartbeats 1000000
set_option autoImplicit false

/-! Verification of the `page_pool` package: a bounded pool of browser page
handles.  The Go source is shallowly embedded: every pool operation becomes a
pure function on an explicit `PoolState`; the idle intrusive doubly-linked
list is represented as a Lean `List` with the head as the front; external
effects (the caller's context, the `select` race on the admission channel,
`newConn`, `TestOnBorrow`, the clock `nowFunc`) are supplied by an `Oracle`
record.  Go `int` fields are modelled as `Int`; the buffered-channel token
count as a `Nat` together with a closed flag.  Sending on a closed channel is
modelled as the `panicked` outcome, receiving from a closed channel succeeds
immediately, as in Go. -/

/-- Configuration fields of `Pool` (immutable after construction). -/
structure Config where
  initActive : Int
  maxIdle : Int
  maxActive : Int
  idleTimeout : Int
  wait : Bool
  maxConnLifetime : Int
  deriving DecidableEq

/-- One pooled page handle (`Conn` in the source): `id` identifies the
underlying page, `t` is the time it was last put back in the pool,
`created` its creation time, `healthy` the (external) outcome of
`p.TestOnBorrow(pc.page) == nil`, and `pageNil` whether `page == nil`. -/
structure ConnRec where
  id : Nat
  t : Int
  created : Int
  healthy : Bool
  pageNil : Bool
  deriving DecidableEq

/-- Mutable pool state guarded by `p.mu`, plus the admission channel `p.ch`
(`chExists` models `p.ch != nil`, `chClosed` that `close(p.ch)` ran,
`chTokens` the number of buffered tokens). The idle list is front-first. -/
@[ext]
structure PoolState where
  closed : Bool
  active : Int
  idle : List ConnRec
  waitCount : Int
  waitDuration : Int
  chExists : Bool
  chClosed : Bool
  chTokens : Nat
  deriving DecidableEq

/-- Snapshot returned by `Stats()`. -/
structure PoolStats where
  activeCount : Int
  idleCount : Int
  waitCount : Int
  waitDuration : Int
  deriving DecidableEq

/-- Errors surfaced by the pool. `canceled` stands for `ctx.Err()`,
`poolClosed` for the `get on closed pool` error, `poolExhausted` for
`ErrPoolExhausted`, `createFailed` for the error returned by `p.newConn`. -/
inductive PoolErr
  | canceled
  | poolClosed
  | poolExhausted
  | createFailed
  deriving DecidableEq

/-- Result of `waitVacantConn`: the waited duration on success, an error,
`blocked` when neither select branch is ready (the goroutine parks), or
`panicked` when the code sends on a closed channel. -/
inductive WaitRes
  | ok (waited : Int)
  | err (e : PoolErr)
  | blocked
  | panicked
  deriving DecidableEq

/-- Result of `GetWithCtx`. -/
inductive GetRes
  | ok (c : ConnRec)
  | err (e : PoolErr)
  | blocked
  | panicked
  deriving DecidableEq

/-- Which ready branch the Go `select` statement picks when both are ready. -/
inductive WaitBranch
  | token
  | ctxCase
  deriving DecidableEq

/-- External inputs of one acquire: the clock, the context-done flags at the
two observation points, the select tie-break, the measured wait time, and the
outcome of `p.newConn` (id and the future `TestOnBorrow` verdict of the new
page). -/
structure Oracle where
  now : Int
  ctxDone : Bool
  pick : WaitBranch
  ctxDoneInner : Bool
  waitedTime : Int
  newConnOk : Bool
  newId : Nat
  newHealthy : Bool
  deriving DecidableEq

/-- `p.lazyInit()`: create `p.ch` once with capacity `MaxActive`; if the pool
is already closed the channel is created closed, otherwise it is filled with
`MaxActive` tokens. -/
def lazyInit (cfg : Config) (s : PoolState) : PoolState :=
  if s.chExists = true then s
  else { s with chExists := true, chClosed := s.closed,
                chTokens := if s.closed = true then 0 else cfg.maxActive.toNat }

/-- Sending one token on `p.ch` (caller has checked the channel is open). -/
def chSend (s : PoolState) : PoolState :=
  { s with chTokens := s.chTokens + 1 }

/-- The `case <-p.ch:` branch of `waitVacantConn`: consume a token, then
re-check the context; if it is done, send the token back (which panics when
the channel is closed) and return `ctx.Err()`. `wslow` is the earlier
`len(p.ch) == 0` reading used only for the returned wait duration. -/
def recvThen (oc : Oracle) (wslow : Bool) (s1 : PoolState) : PoolState × WaitRes :=
  let s2 := { s1 with chTokens := s1.chTokens - 1 }
  if oc.ctxDoneInner = true then
    if s2.chClosed = true then (s2, WaitRes.panicked)
    else ({ s2 with chTokens := s2.chTokens + 1 }, WaitRes.err PoolErr.canceled)
  else (s2, WaitRes.ok (if wslow = true then oc.waitedTime else 0))

/-- `p.waitVacantConn(ctx)`: no-op unless `p.Wait && p.MaxActive > 0`; else
lazily create the channel and run the `select` between a token receive and
`ctx.Done()`.  The receive branch is ready when a token is buffered or the
channel is closed; when both branches are ready the oracle's `pick` decides,
matching Go's random selection. -/
def waitVacantConn (cfg : Config) (oc : Oracle) (s : PoolState) : PoolState × WaitRes :=
  if cfg.wait = false ∨ cfg.maxActive ≤ 0 then (s, WaitRes.ok 0)
  else
    let s1 := lazyInit cfg s
    let wslow : Bool := s1.chTokens = 0
    let recvReady : Bool := 0 < s1.chTokens ∨ s1.chClosed = true
    if recvReady = true ∧ oc.ctxDone = true then
      match oc.pick with
      | WaitBranch.token => recvThen oc wslow s1
      | WaitBranch.ctxCase => (s1, WaitRes.err PoolErr.canceled)
    else if recvReady = true then recvThen oc wslow s1
    else if oc.ctxDone = true then (s1, WaitRes.err PoolErr.canceled)
    else (s1, WaitRes.blocked)

/-- The staleness test of the pruning loop:
`p.idle.back.t.Add(p.IdleTimeout).Before(nowFunc())`. -/
def staleAt (cfg : Config) (now : Int) (pc : ConnRec) : Bool :=
  decide (pc.t + cfg.idleTimeout < now)

/-- The bounded pruning loop of `GetWithCtx`
(`for i := 0; i < n && p.idle.back != nil && ...; i++`): the fuel argument is
the iteration bound `n`; each step pops the back entry when it is stale,
closes its page (collected in the third component) and decrements `active`. -/
def prune (cfg : Config) (now : Int) : Nat → List ConnRec → Int → List ConnRec × Int × List ConnRec
  | 0, l, a => (l, a, [])
  | Nat.succ n, l, a =>
    match l.getLast? with
    | none => (l, a, [])
    | some pc =>
      if staleAt cfg now pc = true then
        let r := prune cfg now n l.dropLast (a - 1)
        (r.1, r.2.1, pc :: r.2.2)
      else (l, a, [])

/-- The `if p.IdleTimeout > 0` pruning phase of `GetWithCtx`, with the bound
`n := p.idle.count` read once at loop entry.  Returns the updated state and
the pruned (closed) connections. -/
def pruneIdle (cfg : Config) (now : Int) (s : PoolState) : PoolState × List ConnRec :=
  if 0 < cfg.idleTimeout then
    let r := prune cfg now s.idle.length s.idle s.active
    ({ s with idle := r.1, active := r.2.1 }, r.2.2)
  else (s, [])

/-- The reuse test of the front loop:
`p.TestOnBorrow(pc.page) == nil && (p.MaxConnLifetime == 0 || nowFunc().Sub(pc.created) < p.MaxConnLifetime)`. -/
def healthyYoung (cfg : Config) (now : Int) (pc : ConnRec) : Bool :=
  pc.healthy && (cfg.maxConnLifetime == 0 || decide (now - pc.created < cfg.maxConnLifetime))

/-- The `for p.idle.front != nil` loop of `GetWithCtx`: pop the front entry;
if it passes `healthyYoung` return it as the checked-out handle, otherwise
close its page (collected in the fourth component), decrement `active` and
continue.  Returns (remaining idle list, active, returned conn, closed). -/
def idleLoop (cfg : Config) (now : Int) : List ConnRec → Int → List ConnRec × Int × Option ConnRec × List ConnRec
  | [], a => ([], a, none, [])
  | pc :: rest, a =>
    if healthyYoung cfg now pc = true then (rest, a, some pc, [])
    else
      let r := idleLoop cfg now rest (a - 1)
      (r.1, r.2.1, r.2.2.1, pc :: r.2.2.2)

/-- The wait-statistics update at the top of the locked section of
`GetWithCtx` (`if waited > 0 { p.waitCount++; p.waitDuration += waited }`). -/
def bumpStats (waited : Int) (s : PoolState) : PoolState :=
  if 0 < waited then
    { s with waitCount := s.waitCount + 1, waitDuration := s.waitDuration + waited }
  else s

/-- The connection built by `p.newConn()` on success: zero `t`, `created`
stamped with the current time, non-nil page; `healthy` carries the oracle's
verdict for any later `TestOnBorrow` on this page. -/
def newConnRec (oc : Oracle) : ConnRec :=
  { id := oc.newId, t := 0, created := oc.now, healthy := oc.newHealthy, pageNil := false }

/-- The body of `GetWithCtx` after `waitVacantConn` returned `(waited, nil)`:
stats bump, pruning, the front reuse loop, the closed-pool check, the
non-blocking exhaustion check, and finally handle creation with rollback
(decrement `active` and return a token if `p.ch != nil && !p.closed`) when
`p.newConn` fails. -/
def getLocked (cfg : Config) (oc : Oracle) (waited : Int) (s : PoolState) : PoolState × GetRes :=
  let s2 := bumpStats waited s
  let s3 := (pruneIdle cfg oc.now s2).1
  let r := idleLoop cfg oc.now s3.idle s3.active
  let s4 := { s3 with idle := r.1, active := r.2.1 }
  match r.2.2.1 with
  | some pc => (s4, GetRes.ok pc)
  | none =>
    if s4.closed = true then (s4, GetRes.err PoolErr.poolClosed)
    else if cfg.wait = false ∧ 0 < cfg.maxActive ∧ cfg.maxActive ≤ s4.active then
      (s4, GetRes.err PoolErr.poolExhausted)
    else
      let s5 := { s4 with active := s4.active + 1 }
      if oc.newConnOk = true then (s5, GetRes.ok (newConnRec oc))
      else
        let s6 := { s5 with active := s5.active - 1 }
        if s6.chExists = true ∧ s6.closed = false then (chSend s6, GetRes.err PoolErr.createFailed)
        else (s6, GetRes.err PoolErr.createFailed)

/-- `p.GetWithCtx(ctx)`: wait for a vacant slot, then run the locked body. -/
def getWithCtx (cfg : Config) (oc : Oracle) (s : PoolState) : PoolState × GetRes :=
  match waitVacantConn cfg oc s with
  | (s1, WaitRes.ok waited) => getLocked cfg oc waited s1
  | (s1, WaitRes.err e) => (s1, GetRes.err e)
  | (s1, WaitRes.blocked) => (s1, GetRes.blocked)
  | (s1, WaitRes.panicked) => (s1, GetRes.panicked)

/-- `context.Background()` is never done: `p.Get()` calls `GetWithCtx` with
both context-done flags forced off. -/
def backgroundOracle (oc : Oracle) : Oracle :=
  { oc with ctxDone := false, ctxDoneInner := false }

/-- `p.Get()`: `c, _ := p.GetWithCtx(context.Background()); return c` — the
error is discarded, failures yield the nil handle `none`.  (Named `poolGet`
because a bare `get` is ambiguous in Lean.) -/
def poolGet (cfg : Config) (oc : Oracle) (s : PoolState) : PoolState × Option ConnRec :=
  match getWithCtx cfg (backgroundOracle oc) s with
  | (s', GetRes.ok c) => (s', some c)
  | (s', _) => (s', none)

/-- `p.put(pc, forceClose)`: when the pool is open and not force-closing,
stamp `pc.t = now` and push it to the idle front, evicting the back entry
when the count exceeds `MaxIdle`; any evicted or forced connection has its
page closed (second component) and `active` decremented; finally a token is
sent when `p.ch != nil && !p.closed`. -/
def put (cfg : Config) (now : Int) (pc : ConnRec) (forceClose : Bool) (s : PoolState) :
    PoolState × Option ConnRec :=
  let r :=
    if s.closed = false ∧ forceClose = false then
      let idle1 := { pc with t := now } :: s.idle
      if cfg.maxIdle < (idle1.length : Int) then
        ({ s with idle := idle1.dropLast }, idle1.getLast?)
      else ({ s with idle := idle1 }, none)
    else (s, some pc)
  let s2 :=
    match r.2 with
    | some _ => { r.1 with active := r.1.active - 1 }
    | none => r.1
  if s2.chExists = true ∧ s2.closed = false then (chSend s2, r.2) else (s2, r.2)

/-- `(*PoolConn).Recycle()`: no-op when `page == nil`, otherwise
`p.put(ac, false)`. Note the source never clears the page reference. -/
def recycle (cfg : Config) (now : Int) (ac : ConnRec) (s : PoolState) : PoolState × Option ConnRec :=
  if ac.pageNil = true then (s, none)
  else put cfg now ac false s

/-- `p.Close()`: on the first call, mark closed, subtract the idle count from
`active`, detach the idle chain (returned as the list of handles closed
outside the lock, in chain order) and close `p.ch` if it exists; later calls
are no-ops.  The Go function always returns a nil error. -/
def closePool (s : PoolState) : PoolState × List ConnRec :=
  if s.closed = true then (s, [])
  else
    ({ s with closed := true,
              active := s.active - (s.idle.length : Int),
              idle := [],
              chClosed := s.chClosed || s.chExists }, s.idle)

/-- `p.Stats()`: lock-guarded snapshot. -/
def stats (s : PoolState) : PoolStats :=
  { activeCount := s.active, idleCount := (s.idle.length : Int),
    waitCount := s.waitCount, waitDuration := s.waitDuration }

/-- Non-blocking configuration without an active limit. -/
def cfgFree : Config :=
  { initActive := 0, maxIdle := 5, maxActive := 0, idleTimeout := 0,
    wait := false, maxConnLifetime := 0 }

/-- Non-blocking configuration with `MaxActive = 1`. -/
def cfgNB : Config :=
  { initActive := 0, maxIdle := 5, maxActive := 1, idleTimeout := 0,
    wait := false, maxConnLifetime := 0 }

/-- Blocking configuration with `MaxActive = 1`. -/
def cfgW : Config :=
  { initActive := 0, maxIdle := 3, maxActive := 1, idleTimeout := 0,
    wait := true, maxConnLifetime := 0 }

/-- Blocking configuration with `MaxActive = 2` and `MaxIdle = 1`. -/
def cfgW2 : Config :=
  { initActive := 0, maxIdle := 1, maxActive := 2, idleTimeout := 60,
    wait := true, maxConnLifetime := 100 }

/-- Empty open pool. -/
def sEmpty : PoolState :=
  { closed := false, active := 0, idle := [], waitCount := 0, waitDuration := 0,
    chExists := false, chClosed := false, chTokens := 0 }

/-- Fresh closed pool (no channel ever created). -/
def sClosed0 : PoolState :=
  { sEmpty with closed := true }

/-- A healthy handle with a non-nil page. -/
def cHealthy : ConnRec :=
  { id := 3, t := 0, created := 0, healthy := true, pageNil := false }

/-- An unhealthy handle (its `TestOnBorrow` fails). -/
def cUnhealthy : ConnRec :=
  { id := 1, t := 0, created := 0, healthy := false, pageNil := false }

/-- Open pool holding one unhealthy idle handle, `active = 1`. -/
def sEx : PoolState :=
  { sEmpty with active := 1, idle := [cUnhealthy] }

/-- Open blocking-mode pool with its channel initialized and one token. -/
def sOpenW : PoolState :=
  { sEmpty with chExists := true, chClosed := false, chTokens := 1 }

/-- Oracle for an undisturbed acquire: live context, creation succeeds. -/
def ocOk : Oracle :=
  { now := 10, ctxDone := false, pick := WaitBranch.token, ctxDoneInner := false,
    waitedTime := 0, newConnOk := true, newId := 9, newHealthy := true }

/-- Oracle for a canceled acquire where the select picks the token branch. -/
def ocCancelTok : Oracle :=
  { ocOk with ctxDone := true, ctxDoneInner := true, waitedTime := 1 }

/-- Oracle for a canceled acquire where the select picks the context branch. -/
def ocCancelCtx : Oracle :=
  { ocCancelTok with pick := WaitBranch.ctxCase }

/-- Oracle for an acquire whose `newConn` call fails. -/
def ocFail : Oracle :=
  { ocOk with newConnOk := false }

/-- A handle put back long ago: stale for `cfgW2.idleTimeout = 60` at time 10. -/
def cStale : ConnRec :=
  { id := 4, t := -100, created := 0, healthy := true, pageNil := false }

/-- Open pool with a fresh front and a stale back idle entry. -/
def sPr : PoolState :=
  { sEmpty with idle := [cHealthy, cStale], active := 2 }

/-- Open pool with no idle entries and one checked-out handle. -/
def sBusy : PoolState :=
  { sEmpty with active := 1 }

/-- Open pool whose single idle entry is healthy, `active = 1`. -/
def sReuse : PoolState :=
  { sEmpty with idle := [cHealthy], active := 1 }

/-- State of `sEmpty` after a blocking-mode wait consumed the only token. -/
def sAfterW : PoolState :=
  { sEmpty with chExists := true }

/-- Open pool whose idle list is exactly at the cap `cfgW2.maxIdle = 1`. -/
def sIdleFull : PoolState :=
  { sEmpty with idle := [cUnhealthy] }


/-- `lazyInit` touches only the channel fields. -/
theorem lazyInit_fields (cfg : Config) (s : PoolState) :
    (lazyInit cfg s).closed = s.closed ∧ (lazyInit cfg s).active = s.active ∧
    (lazyInit cfg s).idle = s.idle ∧ (lazyInit cfg s).waitCount = s.waitCount ∧
    (lazyInit cfg s).waitDuration = s.waitDuration := by
  unfold lazyInit
  split
  · exact ⟨rfl, rfl, rfl, rfl, rfl⟩
  · exact ⟨rfl, rfl, rfl, rfl, rfl⟩

/-- A successful `waitVacantConn` leaves everything but the channel tokens
unchanged. -/
theorem waitOk_core (cfg : Config) (oc : Oracle) (s s1 : PoolState) (w : Int)
    (h : waitVacantConn cfg oc s = (s1, WaitRes.ok w)) :
    s1.closed = s.closed ∧ s1.active = s.active ∧ s1.idle = s.idle ∧
    s1.waitCount = s.waitCount ∧ s1.waitDuration = s.waitDuration := by
  have hli := lazyInit_fields cfg s
  unfold waitVacantConn recvThen at h
  split at h
  · rw [Prod.mk.injEq] at h
    obtain ⟨h1, h2⟩ := h
    subst h1
    exact ⟨rfl, rfl, rfl, rfl, rfl⟩
  · simp only [] at h
    split at h
    · split at h
      · split at h
        · split at h
          · simp at h
          · simp at h
        · rw [Prod.mk.injEq] at h
          obtain ⟨h1, h2⟩ := h
          subst h1
          exact ⟨hli.1, hli.2.1, hli.2.2.1, hli.2.2.2.1, hli.2.2.2.2⟩
      · simp at h
    · split at h
      · split at h
        · split at h
          · simp at h
          · simp at h
        · rw [Prod.mk.injEq] at h
          obtain ⟨h1, h2⟩ := h
          subst h1
          exact ⟨hli.1, hli.2.1, hli.2.2.1, hli.2.2.2.1, hli.2.2.2.2⟩
      · split at h
        · simp at h
        · simp at h

/-- `bumpStats` touches only the two wait statistics. -/
theorem bumpStats_fields (w : Int) (s : PoolState) :
    (bumpStats w s).closed = s.closed ∧ (bumpStats w s).active = s.active ∧
    (bumpStats w s).idle = s.idle ∧ (bumpStats w s).chExists = s.chExists ∧
    (bumpStats w s).chClosed = s.chClosed ∧ (bumpStats w s).chTokens = s.chTokens := by
  unfold bumpStats
  split
  · exact ⟨rfl, rfl, rfl, rfl, rfl, rfl⟩
  · exact ⟨rfl, rfl, rfl, rfl, rfl, rfl⟩

/-- Pruning an empty idle list is the identity. -/
theorem pruneIdle_nil (cfg : Config) (now : Int) (s : PoolState) (h : s.idle = []) :
    pruneIdle cfg now s = (s, []) := by
  have hs : { s with idle := ([] : List ConnRec), active := s.active } = s := by
    rw [← h]
  unfold pruneIdle
  rw [h]
  simp only [List.length_nil]
  split
  · simpa [prune] using congrArg (fun t => (t, ([] : List ConnRec))) hs
  · rfl

/-- The pruning loop does nothing when the back entry is not stale. -/
theorem prune_fresh (cfg : Config) (now : Int) (n : Nat) (l : List ConnRec) (a : Int)
    (h : ∀ b, l.getLast? = some b → staleAt cfg now b = false) :
    prune cfg now n l a = (l, a, []) := by
  cases n with
  | zero => rfl
  | succ n =>
    cases hl : l.getLast? with
    | none => simp [prune, hl]
    | some b => simp [prune, hl, h b hl]

/-- `pruneIdle` is the identity when the timeout is disabled or the back
entry is not yet stale. -/
theorem pruneIdle_id (cfg : Config) (now : Int) (s : PoolState)
    (h : 0 < cfg.idleTimeout → ∀ b, s.idle.getLast? = some b → staleAt cfg now b = false) :
    pruneIdle cfg now s = (s, []) := by
  unfold pruneIdle
  split
  · next hit => rw [prune_fresh cfg now s.idle.length s.idle s.active (h hit)]
  · rfl

/-- Structural specification of the bounded pruning loop: the remaining list
followed by the reversed pruned suffix rebuilds the input, at most `n`
entries are pruned, `active` drops by the pruned count, and every pruned
entry was stale. -/
theorem prune_core (cfg : Config) (now : Int) :
    ∀ (n : Nat) (l : List ConnRec) (a : Int),
      (prune cfg now n l a).1 ++ (prune cfg now n l a).2.2.reverse = l ∧
      (prune cfg now n l a).2.2.length ≤ n ∧
      (prune cfg now n l a).2.1 = a - ((prune cfg now n l a).2.2.length : Int) ∧
      ∀ c ∈ (prune cfg now n l a).2.2, staleAt cfg now c = true := by
  intro n
  induction n with
  | zero => intro l a; simp [prune]
  | succ n ih =>
    intro l a
    cases hl : l.getLast? with
    | none => simp [prune, hl]
    | some pc =>
      by_cases hst : staleAt cfg now pc = true
      · obtain ⟨ih1, ih2, ih3, ih4⟩ := ih l.dropLast (a - 1)
        refine ⟨?_, ?_, ?_, ?_⟩
        · simp only [prune, hl, hst, if_true]
          rw [List.reverse_cons, ← List.append_assoc, ih1]
          exact List.dropLast_append_getLast? pc hl
        · simp only [prune, hl, hst, if_true, List.length_cons]
          omega
        · simp only [prune, hl, hst, if_true, List.length_cons]
          rw [ih3]
          push_cast
          ring
        · intro c hc
          simp only [prune, hl, hst, if_true, List.mem_cons] at hc
          rcases hc with hc | hc
          · rw [hc]; exact hst
          · exact ih4 c hc
      · simp [prune, hl, hst]

/-- A handle that passes the reuse test is within its lifetime when the
lifetime limit is enabled. -/
theorem healthyYoung_lifetime (cfg : Config) (now : Int) (pc : ConnRec)
    (h : healthyYoung cfg now pc = true) (hl : 0 < cfg.maxConnLifetime) :
    now - pc.created < cfg.maxConnLifetime := by
  unfold healthyYoung at h
  simp only [Bool.and_eq_true, Bool.or_eq_true, beq_iff_eq, decide_eq_true_eq] at h
  rcases h.2 with h2 | h2
  · omega
  · exact h2

/-- On a closed pool with an empty idle list, the locked body of
`GetWithCtx` fails with the closed-pool error. -/
theorem getLocked_closed_nil (cfg : Config) (oc : Oracle) (w : Int) (s : PoolState)
    (hcl : s.closed = true) (hidle : s.idle = []) :
    (getLocked cfg oc w s).2 = GetRes.err PoolErr.poolClosed := by
  obtain ⟨hb1, hb2, hb3, _, _, _⟩ := bumpStats_fields w s
  have hp : pruneIdle cfg oc.now (bumpStats w s) = (bumpStats w s, []) :=
    pruneIdle_nil cfg oc.now (bumpStats w s) (by rw [hb3, hidle])
  have hb3' : (bumpStats w s).idle = [] := by rw [hb3, hidle]
  simp [getLocked, hp, hb3', idleLoop, hb1, hcl]

/-- `put` with an open pool, no force-close and room in the idle list keeps
the handle: it is stamped and pushed to the front, nothing is closed. -/
theorem put_keep (cfg : Config) (now : Int) (pc : ConnRec) (s : PoolState)
    (hopen : s.closed = false)
    (hcap : ((s.idle.length + 1 : Nat) : Int) ≤ cfg.maxIdle) :
    (put cfg now pc false s).1.active = s.active ∧
    (put cfg now pc false s).1.idle = { pc with t := now } :: s.idle ∧
    (put cfg now pc false s).2 = none := by
  have hc2 : ¬ cfg.maxIdle < ((({ pc with t := now } :: s.idle).length : Nat) : Int) := by
    simp only [List.length_cons]
    push_cast at hcap ⊢
    omega
  unfold put
  simp only [if_neg hc2]
  split
  · split
    · exact ⟨rfl, rfl, rfl⟩
    · exact ⟨rfl, rfl, rfl⟩
  · next hcon => exact absurd ⟨hopen, trivial⟩ hcon

/-- `put` with an open pool, no force-close and a full idle list pushes the
stamped handle and evicts (closes) the back entry, decrementing `active`. -/
theorem put_evict (cfg : Config) (now : Int) (pc : ConnRec) (s : PoolState)
    (hopen : s.closed = false)
    (hfull : cfg.maxIdle < ((s.idle.length + 1 : Nat) : Int)) :
    (put cfg now pc false s).1.active = s.active - 1 ∧
    (put cfg now pc false s).1.idle = ({ pc with t := now } :: s.idle).dropLast ∧
    (put cfg now pc false s).2 = ({ pc with t := now } :: s.idle).getLast? := by
  have hc2 : cfg.maxIdle < ((({ pc with t := now } :: s.idle).length : Nat) : Int) := by
    simpa using hfull
  cases hgl : ({ pc with t := now } :: s.idle).getLast? with
  | none => simp at hgl
  | some b =>
    unfold put
    simp only [if_pos hc2, hgl]
    split
    · split
      · exact ⟨rfl, rfl, rfl⟩
      · exact ⟨rfl, rfl, rfl⟩
    · next hcon => exact absurd ⟨hopen, trivial⟩ hcon

/-- C6: in the idle-reuse loop of `GetWithCtx`, candidates are taken from the
front (LIFO): the returned handle is the first (most-recently-returned) entry
passing the health-and-lifetime test, the discarded (closed) entries are
exactly the failing prefix, `active` drops by one per discard, the remaining
idle list is what follows the returned entry, and a returned handle always
passes the test — in particular a handle whose age reaches
`MaxConnLifetime` is never handed back out. -/
theorem idleLoop_front_lifo_spec (cfg : Config) (now : Int) (l : List ConnRec) (a : Int) :
    (idleLoop cfg now l a).2.2.1 = l.find? (healthyYoung cfg now) ∧
    (idleLoop cfg now l a).2.2.2 = l.takeWhile (fun c => ! healthyYoung cfg now c) ∧
    (idleLoop cfg now l a).2.1 = a - (((idleLoop cfg now l a).2.2.2.length : Nat) : Int) ∧
    (idleLoop cfg now l a).1 = (l.dropWhile (fun c => ! healthyYoung cfg now c)).tail ∧
    (∀ c, (idleLoop cfg now l a).2.2.1 = some c →
      healthyYoung cfg now c = true ∧
      (0 < cfg.maxConnLifetime → now - c.created < cfg.maxConnLifetime)) := by
  induction l generalizing a with
  | nil => simp [idleLoop]
  | cons pc rest ih =>
    by_cases hp : healthyYoung cfg now pc = true
    · refine ⟨?_, ?_, ?_, ?_, ?_⟩
      · simp [idleLoop, hp, List.find?_cons_of_pos]
      · simp [idleLoop, hp, List.takeWhile_cons_of_neg]
      · simp [idleLoop, hp, List.takeWhile_cons_of_neg]
      · simp [idleLoop, hp, List.dropWhile_cons_of_neg]
      · intro c hc
        simp only [idleLoop, hp, if_true, Option.some.injEq] at hc
        subst hc
        exact ⟨hp, healthyYoung_lifetime cfg now pc hp⟩
    · obtain ⟨ih1, ih2, ih3, ih4, ih5⟩ := ih (a - 1)
      have hpf : healthyYoung cfg now pc = false := by
        simpa using hp
      have key : idleLoop cfg now (pc :: rest) a =
          ((idleLoop cfg now rest (a - 1)).1, (idleLoop cfg now rest (a - 1)).2.1,
            (idleLoop cfg now rest (a - 1)).2.2.1,
            pc :: (idleLoop cfg now rest (a - 1)).2.2.2) := by
        simp [idleLoop, hpf]
      have hbp : (fun c => ! healthyYoung cfg now c) pc = true := by simp [hpf]
      refine ⟨?_, ?_, ?_, ?_, ?_⟩
      · rw [key]
        dsimp only
        rw [List.find?_cons_of_neg _ (by simp [hpf])]
        exact ih1
      · rw [key]
        dsimp only
        simp [List.takeWhile_cons, hpf, ih2]
      · rw [key]
        dsimp only
        rw [ih3, List.length_cons]
        push_cast
        ring
      · rw [key]
        dsimp only
        simp [List.dropWhile_cons, hpf, ih4]
      · intro c hc
        rw [key] at hc
        dsimp only at hc
        exact ih5 c hc

/-- Witness for C6 at a concrete two-entry idle list. -/
theorem idleLoop_front_lifo_spec_witness :
    (idleLoop cfgNB 10 [cUnhealthy, cHealthy] 5).2.2.1 =
      List.find? (healthyYoung cfgNB 10) [cUnhealthy, cHealthy] ∧
    (idleLoop cfgNB 10 [cUnhealthy, cHealthy] 5).2.2.2 =
      List.takeWhile (fun c => ! healthyYoung cfgNB 10 c) [cUnhealthy, cHealthy] ∧
    (idleLoop cfgNB 10 [cUnhealthy, cHealthy] 5).2.1 =
      5 - (((idleLoop cfgNB 10 [cUnhealthy, cHealthy] 5).2.2.2.length : Nat) : Int) ∧
    (idleLoop cfgNB 10 [cUnhealthy, cHealthy] 5).1 =
      (List.dropWhile (fun c => ! healthyYoung cfgNB 10 c) [cUnhealthy, cHealthy]).tail ∧
    (∀ c, (idleLoop cfgNB 10 [cUnhealthy, cHealthy] 5).2.2.1 = some c →
      healthyYoung cfgNB 10 c = true ∧
      (0 < cfgNB.maxConnLifetime → 10 - c.created < cfgNB.maxConnLifetime)) :=
  idleLoop_front_lifo_spec cfgNB 10 [cUnhealthy, cHealthy] 5

/-- C7: the idle-timeout pruning phase of `GetWithCtx` runs at most `n`
iterations where `n` is the idle count read once at loop entry; entries are
removed from the back (the remaining list followed by the reversed pruned
suffix rebuilds the original), an entry is removed (and closed) only when
`IdleTimeout > 0` and it is stale, `active` drops by one per removal, and
the loop — being bounded by `n` — terminates for every state. -/
theorem pruneIdle_bounded_spec (cfg : Config) (now : Int) (s : PoolState) :
    (pruneIdle cfg now s).1.idle ++ (pruneIdle cfg now s).2.reverse = s.idle ∧
    (pruneIdle cfg now s).2.length ≤ s.idle.length ∧
    (pruneIdle cfg now s).1.active = s.active - (((pruneIdle cfg now s).2.length : Nat) : Int) ∧
    (∀ c ∈ (pruneIdle cfg now s).2, 0 < cfg.idleTimeout ∧ staleAt cfg now c = true) ∧
    (pruneIdle cfg now s).1.closed = s.closed ∧
    (pruneIdle cfg now s).1.waitCount = s.waitCount ∧
    (pruneIdle cfg now s).1.waitDuration = s.waitDuration := by
  by_cases hit : 0 < cfg.idleTimeout
  · have hpi : pruneIdle cfg now s =
        ({ s with idle := (prune cfg now s.idle.length s.idle s.active).1,
                  active := (prune cfg now s.idle.length s.idle s.active).2.1 },
          (prune cfg now s.idle.length s.idle s.active).2.2) := by
      unfold pruneIdle
      rw [if_pos hit]
    obtain ⟨h1, h2, h3, h4⟩ := prune_core cfg now s.idle.length s.idle s.active
    rw [hpi]
    exact ⟨h1, h2, h3, fun c hc => ⟨hit, h4 c hc⟩, rfl, rfl, rfl⟩
  · simp [pruneIdle, hit]

/-- Witness for C7 at a pool whose back idle entry is stale. -/
theorem pruneIdle_bounded_spec_witness :
    (pruneIdle cfgW2 10 sPr).1.idle ++ (pruneIdle cfgW2 10 sPr).2.reverse = sPr.idle ∧
    (pruneIdle cfgW2 10 sPr).2.length ≤ sPr.idle.length ∧
    (pruneIdle cfgW2 10 sPr).1.active = sPr.active - (((pruneIdle cfgW2 10 sPr).2.length : Nat) : Int) ∧
    (∀ c ∈ (pruneIdle cfgW2 10 sPr).2, 0 < cfgW2.idleTimeout ∧ staleAt cfgW2 10 c = true) ∧
    (pruneIdle cfgW2 10 sPr).1.closed = sPr.closed ∧
    (pruneIdle cfgW2 10 sPr).1.waitCount = sPr.waitCount ∧
    (pruneIdle cfgW2 10 sPr).1.waitDuration = sPr.waitDuration :=
  pruneIdle_bounded_spec cfgW2 10 sPr

/-- C2: `put` on an open pool without force-close preserves the invariant
`idle.count ≤ MaxIdle`; when the idle count already equals `MaxIdle`, the
handle is pushed to the front and exactly one entry — the back-most of the
list after the push — is evicted and closed (returned as the second
component) with `active` decremented, so the cap is never exceeded. -/
theorem put_respects_maxIdle (cfg : Config) (now : Int) (pc : ConnRec) (s : PoolState)
    (hopen : s.closed = false) (hcap : (s.idle.length : Int) ≤ cfg.maxIdle) :
    ((put cfg now pc false s).1.idle.length : Int) ≤ cfg.maxIdle ∧
    ((s.idle.length : Int) = cfg.maxIdle →
      (put cfg now pc false s).2 = ({ pc with t := now } :: s.idle).getLast? ∧
      (put cfg now pc false s).1.idle = ({ pc with t := now } :: s.idle).dropLast ∧
      (put cfg now pc false s).1.active = s.active - 1 ∧
      (put cfg now pc false s).1.idle.length = s.idle.length) := by
  by_cases hfull : cfg.maxIdle < ((s.idle.length + 1 : Nat) : Int)
  · obtain ⟨ha, hi, he⟩ := put_evict cfg now pc s hopen hfull
    constructor
    · rw [hi]
      simp only [List.length_dropLast, List.length_cons, Nat.add_sub_cancel]
      exact hcap
    · intro heq
      refine ⟨he, hi, ha, ?_⟩
      rw [hi]
      simp
  · obtain ⟨ha, hi, he⟩ := put_keep cfg now pc s hopen (by push_cast at hfull ⊢; omega)
    constructor
    · rw [hi]
      simp only [List.length_cons]
      push_cast at hfull ⊢
      omega
    · intro heq
      exfalso
      push_cast at hfull heq
      omega

/-- Witness for C2 on a pool whose idle list is exactly at the cap. -/
theorem put_respects_maxIdle_witness :
    ((put cfgW2 7 cHealthy false sIdleFull).1.idle.length : Int) ≤ cfgW2.maxIdle ∧
    ((sIdleFull.idle.length : Int) = cfgW2.maxIdle →
      (put cfgW2 7 cHealthy false sIdleFull).2 =
        ({ cHealthy with t := 7 } :: sIdleFull.idle).getLast? ∧
      (put cfgW2 7 cHealthy false sIdleFull).1.idle =
        ({ cHealthy with t := 7 } :: sIdleFull.idle).dropLast ∧
      (put cfgW2 7 cHealthy false sIdleFull).1.active = sIdleFull.active - 1 ∧
      (put cfgW2 7 cHealthy false sIdleFull).1.idle.length = sIdleFull.idle.length) :=
  put_respects_maxIdle cfgW2 7 cHealthy sIdleFull rfl (by decide)

/-- C5 (counterexample): with a fully-unhealthy idle list the claim fails —
discarding the unhealthy candidate decrements `active` below `MaxActive`, so
the non-blocking acquire creates a fresh handle and succeeds instead of
returning the pool-exhausted error. -/
theorem getWithCtx_exhausted_cex :
    cfgNB.wait = false ∧ 0 < cfgNB.maxActive ∧ sEx.closed = false ∧
    cfgNB.maxActive ≤ sEx.active ∧
    (∀ c ∈ sEx.idle, healthyYoung cfgNB ocOk.now c = false) ∧
    (getWithCtx cfgNB ocOk sEx).2 = GetRes.ok (newConnRec ocOk) ∧
    (getWithCtx cfgNB ocOk sEx).2 ≠ GetRes.err PoolErr.poolExhausted := by decide

/-- C5 (amended): a non-blocking acquire on an open pool with `MaxActive > 0`,
an empty idle list and `active ≥ MaxActive` fails immediately with
`ErrPoolExhausted`, leaving the state untouched — no blocking, no `active`
increment, no handle creation. -/
theorem getWithCtx_exhausted_empty_idle (cfg : Config) (oc : Oracle) (s : PoolState)
    (hw : cfg.wait = false) (hm : 0 < cfg.maxActive) (hopen : s.closed = false)
    (hidle : s.idle = []) (hact : cfg.maxActive ≤ s.active) :
    getWithCtx cfg oc s = (s, GetRes.err PoolErr.poolExhausted) := by
  have hwv : waitVacantConn cfg oc s = (s, WaitRes.ok 0) := by
    unfold waitVacantConn
    rw [if_pos (Or.inl hw)]
  have hg : getWithCtx cfg oc s = getLocked cfg oc 0 s := by
    unfold getWithCtx
    rw [hwv]
  have hb : bumpStats 0 s = s := by
    unfold bumpStats
    rw [if_neg (by omega)]
  have hp := pruneIdle_nil cfg oc.now s hidle
  have hs : getLocked cfg oc 0 s = (s, GetRes.err PoolErr.poolExhausted) := by
    simp only [getLocked, hb, hp, hidle, idleLoop]
    simp [hopen, hw, hm, hact, PoolState.ext_iff, hidle]
  rw [hg, hs]

/-- Witness for C5 (amended) on a concrete saturated pool. -/
theorem getWithCtx_exhausted_empty_idle_witness :
    getWithCtx cfgNB ocOk sBusy = (sBusy, GetRes.err PoolErr.poolExhausted) :=
  getWithCtx_exhausted_empty_idle cfgNB ocOk sBusy rfl (by decide) rfl rfl (by decide)

/-- C1 (counterexample): an acquire that creates a new handle followed by an
immediate `Recycle` (pool open, not force-closed, idle count below `MaxIdle`)
does not restore `active` or the idle count: both end one higher. -/
theorem getRecycle_roundTrip_cex :
    sEmpty.closed = false ∧ (sEmpty.idle.length : Int) < cfgFree.maxIdle ∧
    (getWithCtx cfgFree ocOk sEmpty).2 = GetRes.ok (newConnRec ocOk) ∧
    (recycle cfgFree 11 (newConnRec ocOk) (getWithCtx cfgFree ocOk sEmpty).1).2 = none ∧
    (stats (recycle cfgFree 11 (newConnRec ocOk) (getWithCtx cfgFree ocOk sEmpty).1).1).activeCount = 1 ∧
    (stats sEmpty).activeCount = 0 ∧
    (stats (recycle cfgFree 11 (newConnRec ocOk) (getWithCtx cfgFree ocOk sEmpty).1).1).idleCount = 1 ∧
    (stats sEmpty).idleCount = 0 := by decide

/-- C3 (counterexample): on a closed pool, the cancellation race in which the
select receives from the (closed) channel and then sees the context done
sends on a closed channel — a panic — instead of returning the cancellation
error. -/
theorem waitVacantConn_cancel_panic_cex :
    cfgW.wait = true ∧ 0 < cfgW.maxActive ∧
    ocCancelTok.ctxDone = true ∧ ocCancelTok.ctxDoneInner = true ∧
    (getWithCtx cfgW ocCancelTok sClosed0).2 = GetRes.panicked ∧
    GetRes.panicked ≠ GetRes.err PoolErr.canceled := by decide

/-- C8 (counterexample): a blocking acquire on a closed pool whose context is
already canceled returns the cancellation error, not the closed-pool error,
so not every post-close acquire fails with the closed-pool error. -/
theorem closePool_acquire_cancel_cex :
    (closePool sOpenW).1.closed = true ∧
    (getWithCtx cfgW ocCancelCtx (closePool sOpenW).1).2 = GetRes.err PoolErr.canceled ∧
    GetRes.err PoolErr.canceled ≠ GetRes.err PoolErr.poolClosed := by decide

/-- C9: `Recycle` never clears the handle's page reference, so a second
`Recycle` on an already-released handle with a non-nil page is not a no-op:
it re-runs `put`, re-inserting the handle into the idle list (the intrusive
list is corrupted in the original code; here the duplicate insertion is
observable as the idle count growing to 2). -/
theorem recycle_second_call_not_noop :
    cHealthy.pageNil = false ∧
    (recycle cfgNB 5 cHealthy sEmpty).1.idle.length = 1 ∧
    (recycle cfgNB 6 cHealthy (recycle cfgNB 5 cHealthy sEmpty).1).1.idle.length = 2 ∧
    (recycle cfgNB 6 cHealthy (recycle cfgNB 5 cHealthy sEmpty).1).1 ≠
      (recycle cfgNB 5 cHealthy sEmpty).1 := by decide

/-- C10: `Get` discards the error of `GetWithCtx`: whenever `GetWithCtx` on
the background context fails with any error, `Get` returns the nil handle
`none` — its return type carries no error indication at all. -/
theorem get_discards_error (cfg : Config) (oc : Oracle) (s : PoolState) (e : PoolErr)
    (h : (getWithCtx cfg (backgroundOracle oc) s).2 = GetRes.err e) :
    (poolGet cfg oc s).2 = none := by
  have h2 : getWithCtx cfg (backgroundOracle oc) s =
      ((getWithCtx cfg (backgroundOracle oc) s).1, GetRes.err e) := by
    rw [← h]
  unfold poolGet
  rw [h2]

/-- Witness for C10: a closed pool makes `GetWithCtx` fail and `Get` return
the nil handle. -/
theorem get_discards_error_witness : (poolGet cfgNB ocOk sClosed0).2 = none :=
  get_discards_error cfgNB ocOk sClosed0 PoolErr.poolClosed (by decide)

/-- C3 (amended): for a blocking acquire (`Wait`, `MaxActive > 0`) on a pool
whose semaphore channel is not closed, if the caller's cancellation has fired
(at the select and at the inner re-check), the acquire returns the
cancellation error and the state is exactly the lazily-initialized one: any
token received in the race was sent back, no token is leaked, and `active`
is untouched. -/
theorem waitVacantConn_cancel_no_leak (cfg : Config) (oc : Oracle) (s : PoolState)
    (hw : cfg.wait = true) (hm : 0 < cfg.maxActive)
    (hopen : s.closed = false) (hch : s.chClosed = false)
    (hd : oc.ctxDone = true) (hdi : oc.ctxDoneInner = true) :
    getWithCtx cfg oc s = (lazyInit cfg s, GetRes.err PoolErr.canceled) ∧
    (lazyInit cfg s).active = s.active ∧
    (lazyInit cfg s).idle = s.idle := by
  have hlc : (lazyInit cfg s).chClosed = false := by
    unfold lazyInit
    split
    · exact hch
    · simpa using hopen
  have hcond : ¬(cfg.wait = false ∨ cfg.maxActive ≤ 0) := by
    rintro (h | h)
    · rw [hw] at h; cases h
    · omega
  have hwv : waitVacantConn cfg oc s = (lazyInit cfg s, WaitRes.err PoolErr.canceled) := by
    unfold waitVacantConn recvThen
    rw [if_neg hcond]
    by_cases htok : 0 < (lazyInit cfg s).chTokens
    · cases hpick : oc.pick with
      | token =>
        simp only [hpick, hd, hdi, hlc]
        simp [htok]
        ext <;> simp [hlc, Nat.sub_add_cancel htok]
      | ctxCase =>
        simp only [hpick, hd, hdi, hlc]
        simp [htok]
    · simp only [hd, hdi, hlc]
      simp [htok]
  refine ⟨?_, (lazyInit_fields cfg s).2.1, (lazyInit_fields cfg s).2.2.1⟩
  unfold getWithCtx
  rw [hwv]

/-- Witness for C3 (amended) on an open blocking pool with one token. -/
theorem waitVacantConn_cancel_no_leak_witness :
    getWithCtx cfgW ocCancelTok sOpenW = (lazyInit cfgW sOpenW, GetRes.err PoolErr.canceled) ∧
    (lazyInit cfgW sOpenW).active = sOpenW.active ∧
    (lazyInit cfgW sOpenW).idle = sOpenW.idle :=
  waitVacantConn_cancel_no_leak cfgW ocCancelTok sOpenW rfl (by decide) rfl rfl rfl rfl

/-- The locked body of `GetWithCtx` on an empty idle list, as a case split
over the closed-pool check, the exhaustion check and the creation outcome. -/
theorem getLocked_nil (cfg : Config) (oc : Oracle) (w : Int) (s : PoolState)
    (hidle : s.idle = []) :
    getLocked cfg oc w s =
      (if s.closed = true then (bumpStats w s, GetRes.err PoolErr.poolClosed)
       else if cfg.wait = false ∧ 0 < cfg.maxActive ∧ cfg.maxActive ≤ s.active then
         (bumpStats w s, GetRes.err PoolErr.poolExhausted)
       else if oc.newConnOk = true then
         ({ bumpStats w s with active := (bumpStats w s).active + 1 }, GetRes.ok (newConnRec oc))
       else if s.chExists = true ∧ s.closed = false then
         (chSend { bumpStats w s with active := (bumpStats w s).active + 1 - 1 },
           GetRes.err PoolErr.createFailed)
       else
         ({ bumpStats w s with active := (bumpStats w s).active + 1 - 1 },
           GetRes.err PoolErr.createFailed)) := by
  obtain ⟨hb1, hb2, hb3, hb4, hb5, hb6⟩ := bumpStats_fields w s
  have hbidle : (bumpStats w s).idle = [] := by rw [hb3, hidle]
  have hp := pruneIdle_nil cfg oc.now (bumpStats w s) hbidle
  have hs4 : ({ bumpStats w s with
      idle := ([] : List ConnRec),
      active := (bumpStats w s).active } : PoolState) = bumpStats w s := by
    rw [← hbidle]
  simp only [getLocked, hp, hbidle, idleLoop]
  rw [hs4]
  simp only [hb1, hb2, hb4]

/-- C4: when an acquire reaches the creation step (open pool, empty idle
list, not the non-blocking exhaustion case) and `newConn` fails, the error
is surfaced, `active` is decremented back to its pre-acquire value, and one
token is returned to the semaphore exactly when the channel exists and the
pool is not closed. -/
theorem getWithCtx_createFail_rollback (cfg : Config) (oc : Oracle) (s s1 : PoolState) (w : Int)
    (hwv : waitVacantConn cfg oc s = (s1, WaitRes.ok w))
    (hidle : s.idle = [])
    (hopen : s.closed = false)
    (hnex : ¬(cfg.wait = false ∧ 0 < cfg.maxActive ∧ cfg.maxActive ≤ s.active))
    (hfail : oc.newConnOk = false) :
    (getWithCtx cfg oc s).2 = GetRes.err PoolErr.createFailed ∧
    (getWithCtx cfg oc s).1.active = s.active ∧
    (getWithCtx cfg oc s).1.chTokens =
      (if s1.chExists = true ∧ s1.closed = false then s1.chTokens + 1 else s1.chTokens) := by
  obtain ⟨hc1, hc2, hc3, hc4, hc5⟩ := waitOk_core cfg oc s s1 w hwv
  obtain ⟨hb1, hb2, hb3, hb4, hb5, hb6⟩ := bumpStats_fields w s1
  have hg : getWithCtx cfg oc s = getLocked cfg oc w s1 := by
    unfold getWithCtx
    rw [hwv]
  have hln := getLocked_nil cfg oc w s1 (by rw [hc3]; exact hidle)
  have h1 : ¬ s1.closed = true := by
    rw [hc1, hopen]
    simp
  have h2 : ¬ (cfg.wait = false ∧ 0 < cfg.maxActive ∧ cfg.maxActive ≤ s1.active) := by
    rw [hc2]
    exact hnex
  have h3 : ¬ oc.newConnOk = true := by
    rw [hfail]
    simp
  rw [hg, hln, if_neg h1, if_neg h2, if_neg h3]
  by_cases hchn : s1.chExists = true ∧ s1.closed = false
  · rw [if_pos hchn, if_pos hchn]
    refine ⟨rfl, ?_, ?_⟩
    · simp [chSend, hb2, hc2]
    · simp [chSend, hb6]
  · rw [if_neg hchn, if_neg hchn]
    refine ⟨rfl, ?_, ?_⟩
    · simp [hb2, hc2]
    · simp [hb6]

/-- Witness for C4: blocking pool, channel freshly initialized, creation
fails; the taken token is restored. -/
theorem getWithCtx_createFail_rollback_witness :
    (getWithCtx cfgW ocFail sEmpty).2 = GetRes.err PoolErr.createFailed ∧
    (getWithCtx cfgW ocFail sEmpty).1.active = sEmpty.active ∧
    (getWithCtx cfgW ocFail sEmpty).1.chTokens =
      (if sAfterW.chExists = true ∧ sAfterW.closed = false then sAfterW.chTokens + 1
       else sAfterW.chTokens) :=
  getWithCtx_createFail_rollback cfgW ocFail sEmpty sAfterW 0 (by decide) rfl rfl
    (by decide) rfl

/-- Any acquire on a closed pool with an empty idle list whose context is
live fails with the closed-pool error (the wait phase returns immediately:
either it is skipped, or the closed channel makes the receive ready). -/
theorem closedPool_get_fails (cfg : Config) (oc : Oracle) (t : PoolState)
    (hcl : t.closed = true) (hidle : t.idle = [])
    (hchc : t.chExists = true → t.chClosed = true)
    (hd : oc.ctxDone = false) (hdi : oc.ctxDoneInner = false) :
    (getWithCtx cfg oc t).2 = GetRes.err PoolErr.poolClosed := by
  by_cases hcond : cfg.wait = false ∨ cfg.maxActive ≤ 0
  · have hwv : waitVacantConn cfg oc t = (t, WaitRes.ok 0) := by
      unfold waitVacantConn
      rw [if_pos hcond]
    have hg : getWithCtx cfg oc t = getLocked cfg oc 0 t := by
      unfold getWithCtx
      rw [hwv]
    rw [hg]
    exact getLocked_closed_nil cfg oc 0 t hcl hidle
  · have hlc : (lazyInit cfg t).chClosed = true := by
      unfold lazyInit
      split
      · next hce => exact hchc hce
      · simpa using hcl
    have hexists : ∃ w t1, waitVacantConn cfg oc t = (t1, WaitRes.ok w) := by
      unfold waitVacantConn recvThen
      rw [if_neg hcond]
      simp [hlc, hd, hdi]
    obtain ⟨w, t1, hwv⟩ := hexists
    obtain ⟨hc1, _, hc3, _, _⟩ := waitOk_core cfg oc t t1 w hwv
    have hg : getWithCtx cfg oc t = getLocked cfg oc w t1 := by
      unfold getWithCtx
      rw [hwv]
    rw [hg]
    exact getLocked_closed_nil cfg oc w t1 (by rw [hc1]; exact hcl) (by rw [hc3]; exact hidle)

/-- C8 (amended): `Close` is idempotent — the first call on an open pool sets
`closed`, subtracts the idle count from `active`, resets the idle list while
capturing the detached chain (each formerly-idle handle appears in it exactly
once, to be closed outside the lock), and closes the channel if it exists;
every later `Close` is a no-op closing nothing and returning success; and
every acquire after `Close` whose context has not been canceled fails with
the closed-pool error. -/
theorem closePool_idempotent_spec (cfg : Config) (oc : Oracle) (s : PoolState)
    (hopen : s.closed = false) (hd : oc.ctxDone = false) (hdi : oc.ctxDoneInner = false) :
    closePool s = ({ s with
        closed := true,
        active := s.active - (s.idle.length : Int),
        idle := [],
        chClosed := s.chClosed || s.chExists }, s.idle) ∧
    closePool (closePool s).1 = ((closePool s).1, []) ∧
    (getWithCtx cfg oc (closePool s).1).2 = GetRes.err PoolErr.poolClosed := by
  have h1 : closePool s = ({ s with
      closed := true,
      active := s.active - (s.idle.length : Int),
      idle := [],
      chClosed := s.chClosed || s.chExists }, s.idle) := by
    unfold closePool
    rw [if_neg (by rw [hopen]; simp)]
  refine ⟨h1, ?_, ?_⟩
  · rw [h1]
    unfold closePool
    rw [if_pos rfl]
  · refine closedPool_get_fails cfg oc (closePool s).1 ?_ ?_ ?_ hd hdi
    · rw [h1]
    · rw [h1]
    · rw [h1]
      intro hce
      simp only [] at hce
      simp [hce]

/-- Witness for C8 (amended) on an open blocking pool with a live channel. -/
theorem closePool_idempotent_spec_witness :
    closePool sOpenW = ({ sOpenW with
        closed := true,
        active := sOpenW.active - (sOpenW.idle.length : Int),
        idle := [],
        chClosed := sOpenW.chClosed || sOpenW.chExists }, sOpenW.idle) ∧
    closePool (closePool sOpenW).1 = ((closePool sOpenW).1, []) ∧
    (getWithCtx cfgW ocOk (closePool sOpenW).1).2 = GetRes.err PoolErr.poolClosed :=
  closePool_idempotent_spec cfgW ocOk sOpenW rfl rfl rfl

/-- C1 (amended): when the acquire is served by reusing the front idle entry
— no idle-timeout pruning applies (timeout disabled or the back entry is not
stale) and the front entry passes the health and lifetime checks — an
immediate `Recycle` (pool open, not force-closed, idle count within
`MaxIdle`) restores `active`, the idle count, and every `Stats()` field
except the wait counters, to their values before the acquire/release pair.
An acquire that instead creates a new handle leaves `active` and the idle
count one higher (see the counterexample). -/
theorem getRecycle_roundTrip_reuse (cfg : Config) (oc : Oracle) (s s1 : PoolState)
    (w now2 : Int) (pc : ConnRec) (rest : List ConnRec)
    (hwv : waitVacantConn cfg oc s = (s1, WaitRes.ok w))
    (hidle : s.idle = pc :: rest)
    (hnoprune : 0 < cfg.idleTimeout →
      ∀ b, s.idle.getLast? = some b → staleAt cfg oc.now b = false)
    (hok : healthyYoung cfg oc.now pc = true)
    (hpage : pc.pageNil = false)
    (hopen : s.closed = false)
    (hcap : (s.idle.length : Int) ≤ cfg.maxIdle) :
    (getWithCtx cfg oc s).2 = GetRes.ok pc ∧
    (recycle cfg now2 pc (getWithCtx cfg oc s).1).1.active = s.active ∧
    (recycle cfg now2 pc (getWithCtx cfg oc s).1).1.idle.length = s.idle.length ∧
    (stats (recycle cfg now2 pc (getWithCtx cfg oc s).1).1).activeCount =
      (stats s).activeCount ∧
    (stats (recycle cfg now2 pc (getWithCtx cfg oc s).1).1).idleCount =
      (stats s).idleCount := by
  obtain ⟨hc1, hc2, hc3, hc4, hc5⟩ := waitOk_core cfg oc s s1 w hwv
  obtain ⟨hb1, hb2, hb3, hb4, hb5, hb6⟩ := bumpStats_fields w s1
  have hg : getWithCtx cfg oc s = getLocked cfg oc w s1 := by
    unfold getWithCtx
    rw [hwv]
  have hs2idle : (bumpStats w s1).idle = pc :: rest := by rw [hb3, hc3, hidle]
  have hnp : pruneIdle cfg oc.now (bumpStats w s1) = (bumpStats w s1, []) := by
    apply pruneIdle_id
    intro hit b hb
    apply hnoprune hit b
    rw [hidle]
    rw [hs2idle] at hb
    exact hb
  have hloc : getLocked cfg oc w s1 =
      ({ bumpStats w s1 with
          idle := rest,
          active := (bumpStats w s1).active }, GetRes.ok pc) := by
    simp only [getLocked, hnp, hs2idle, idleLoop, hok, if_true]
  have hsf1 : (({ bumpStats w s1 with
      idle := rest,
      active := (bumpStats w s1).active } : PoolState)).closed = false := by
    show (bumpStats w s1).closed = false
    rw [hb1, hc1, hopen]
  have hlen : s.idle.length = rest.length + 1 := by
    rw [hidle]
    rfl
  have hcap' : ((rest.length + 1 : Nat) : Int) ≤ cfg.maxIdle := by
    rw [← hlen]
    exact hcap
  obtain ⟨hpa, hpi, hpe⟩ := put_keep cfg now2 pc
    ({ bumpStats w s1 with idle := rest, active := (bumpStats w s1).active }) hsf1 hcap'
  have hrec : recycle cfg now2 pc
      ({ bumpStats w s1 with idle := rest, active := (bumpStats w s1).active }) =
      put cfg now2 pc false
        ({ bumpStats w s1 with idle := rest, active := (bumpStats w s1).active }) := by
    unfold recycle
    rw [if_neg (by rw [hpage]; simp)]
  rw [hg, hloc]
  dsimp only
  rw [hrec]
  refine ⟨rfl, ?_, ?_, ?_, ?_⟩
  · rw [hpa]
    show (bumpStats w s1).active = s.active
    rw [hb2, hc2]
  · rw [hpi]
    rw [hlen]
    rfl
  · simp only [stats]
    rw [hpa]
    show (bumpStats w s1).active = s.active
    rw [hb2, hc2]
  · simp only [stats]
    rw [hpi]
    rw [hlen]
    rfl

/-- Witness for C1 (amended): reuse round trip on a one-entry idle list. -/
theorem getRecycle_roundTrip_reuse_witness :
    (getWithCtx cfgFree ocOk sReuse).2 = GetRes.ok cHealthy ∧
    (recycle cfgFree 11 cHealthy (getWithCtx cfgFree ocOk sReuse).1).1.active = sReuse.active ∧
    (recycle cfgFree 11 cHealthy (getWithCtx cfgFree ocOk sReuse).1).1.idle.length =
      sReuse.idle.length ∧
    (stats (recycle cfgFree 11 cHealthy (getWithCtx cfgFree ocOk sReuse).1).1).activeCount =
      (stats sReuse).activeCount ∧
    (stats (recycle cfgFree 11 cHealthy (getWithCtx cfgFree ocOk sReuse).1).1).idleCount =
      (stats sReuse).idleCount :=
  getRecycle_roundTrip_reuse cfgFree ocOk sReuse sReuse 0 11 cHealthy []
    (by decide) rfl (fun hit => absurd hit (by decide)) (by decide) rfl rfl (by decide)
